import Mathlib

/-!
Verification development for the workflow orchestration core of the
abhikarta repository: the DAG orchestrator (`workflows/orchestrator.py`)
and the autonomous LangGraph planner (`workflows/lgraph/lgraph_planner.py`),
together with the agent registry (`agents/agent_registry.py`) and the echo
agent (`agents/echo_agent.py`).

The embedding is shallow: Python dictionaries become association lists over
an opaque value type `Val`, the SQLite-backed persistence becomes explicit
record lists threaded through the state, background threads become
synchronous function calls (the repository runs one worker per workflow and
every claim under study concerns a single workflow), and `datetime.now()`
timestamps are omitted (no claim mentions them).  The capability providers
(agent/tool executors) are parameters, matching the specification's view of
them as external collaborators.
-/

/-- Opaque JSON-like value, modelling the Python dict/list/str/bool/number
values that flow through node configs, step inputs and capability results. -/
inductive Val where
  | vNull : Val
  | vBool : Bool → Val
  | vStr : String → Val
  | vNum : Int → Val
  | vList : List Val → Val
  | vObj : List (String × Val) → Val

/-- Field lookup on an object value (`None` on non-objects / missing keys). -/
def objLookup (v : Val) (key : String) : Option Val :=
  match v with
  | Val.vObj fields => fields.lookup key
  | _ => none

/-- Python dict assignment `d[k] = v` on an association list: replaces the
value at an existing key in place, otherwise appends the new binding. -/
def dictSet {α : Type} (d : List (String × α)) (k : String) (v : α) :
    List (String × α) :=
  if (d.lookup k).isSome then
    d.map (fun p => if p.1 = k then (k, v) else p)
  else
    d ++ [(k, v)]

/-! ## DAG orchestrator data model (`workflows/orchestrator.py`)

The node and graph classes live in `core/graph.py`, which is not part of
the sources under study; only the orchestrator that imports them is.  The
node/graph definitions below are therefore modelled from the spec (see the
individual doc comments), while everything that manipulates them is a
direct translation of `workflows/orchestrator.py`. -/

/-- Modelled from the spec: `core/graph.py` (class `NodeStatus`) is absent
from src/.  §3 gives the node status machine
`PENDING → RUNNING → \x7bCOMPLETED | FAILED | SKIPPED\x7d`; the orchestrator's
own code references exactly the members PENDING, RUNNING, COMPLETED,
FAILED and SKIPPED. -/
inductive NodeStatus where
  | pending : NodeStatus
  | running : NodeStatus
  | completed : NodeStatus
  | failed : NodeStatus
  | skipped : NodeStatus
deriving DecidableEq, Repr

/-- Modelled from the spec: `core/graph.py` (class `Node`) is absent from
src/.  Fields follow §3's Node attributes as read by the orchestrator:
`config` is flattened into the `input`, `tool_name` and `message` entries
the orchestrator reads from it (`config.get('input', {})`,
`config.get('tool_name')`, `config.get('message', 'Approval required')`). -/
structure Node where
  node_id : String
  node_type : String
  agent_id : Option String
  tool_name : Option String
  input : List (String × Val)
  message : Option String
  dependencies : List String
  status : NodeStatus
  result : Option Val
  error : Option String

/-- Modelled from the spec: `core/graph.py` (class `Graph`) is absent from
src/.  §3: a named collection of nodes; edges are carried as each node's
`dependencies` list. -/
structure Graph where
  nodes : List Node

/-- Modelled from the spec: `Node.is_ready` of the absent `core/graph.py`.
§3/§4.1: a node is ready for a completed-id set iff its status is PENDING
and every dependency id is in the set. -/
def Node.is_ready (n : Node) (completed : List String) : Bool :=
  n.status == NodeStatus.pending &&
    n.dependencies.all (fun d => completed.contains d)

/-- Modelled from the spec: `Graph.get_ready_nodes` of the absent
`core/graph.py`.  §4.1: returns every node whose status is PENDING and all
of whose dependencies are in `completed_ids`.  §4.2 step 3b additionally
treats `human_in_loop` nodes as outside the ready set (they raise HITL
requests only once the ready set is empty, which would be unreachable if
they were themselves returned as ready), so they are excluded here. -/
def Graph.get_ready_nodes (g : Graph) (completed : List String) : List Node :=
  g.nodes.filter (fun n =>
    n.is_ready completed && n.node_type != "human_in_loop")

/-- Look a node up by id (`Graph.get_node`). -/
def Graph.get_node (g : Graph) (node_id : String) : Option Node :=
  g.nodes.find? (fun n => n.node_id == node_id)

/-- Replace the node carrying the given id (object mutation in the source). -/
def Graph.set_node (g : Graph) (node_id : String) (n' : Node) : Graph :=
  ⟨g.nodes.map (fun n => if n.node_id == node_id then n' else n)⟩

/-- Result of a capability-provider call, the
`\x7bsuccess, result | error\x7d` dictionary of §6: `result` is meaningful when
`success` is true, `error` when it is false. -/
structure CapResult where
  success : Bool
  result : Val
  error : String

/-- The external capability providers (`AgentRegistry.execute_agent` and
`ToolRegistry.execute_tool` as consumed by the orchestrator). -/
structure Providers where
  execAgent : String → List (String × Val) → CapResult
  execTool : String → List (String × Val) → CapResult

/-- A `hitl_requests` row as written by `_handle_hitl_node`, `approve_hitl`
and `reject_hitl` (timestamps omitted). -/
structure HitlRequest where
  request_id : String
  node_id : String
  message : String
  hstatus : String
  responded_by : Option String
  response : Option String

/-- The per-workflow state: the in-memory graph, the persisted workflow row
(status and error), the persisted `workflow_nodes` status column, the
`hitl_requests` rows, whether the workflow is still in
`_active_workflows`, and the instrumented trace of capability invocations
(node ids, in dispatch order). -/
structure WfState where
  graph : Graph
  wfStatus : String
  wfError : Option String
  dbNodeStatus : List (String × String)
  hitl : List HitlRequest
  active : Bool
  dispatched : List String

/-- The string stored in the `workflow_nodes.status` column
(`NodeStatus.value` in the source). -/
def statusValue : NodeStatus → String
  | NodeStatus.pending => "pending"
  | NodeStatus.running => "running"
  | NodeStatus.completed => "completed"
  | NodeStatus.failed => "failed"
  | NodeStatus.skipped => "skipped"

/-- `_update_node_status`: persist a node's status string. -/
def updateDbNodeStatus (st : WfState) (node_id status : String) : WfState :=
  { st with dbNodeStatus := dictSet st.dbNodeStatus node_id status }

/-- `WorkflowOrchestrator._execute_node`, returning the updated node and
whether a capability provider was actually invoked (the instrumentation
used for the dispatch-count claims).  The transient RUNNING status is
overwritten by the terminal status before the function returns, exactly as
in the source. -/
def execute_node (P : Providers) (n : Node) : Node × Bool :=
  let n1 := { n with status := NodeStatus.running }
  if n1.node_type == "agent" then
    match n1.agent_id with
    | none => ({ n1 with
                 status := NodeStatus.failed,
                 error := some "No agent_id specified" }, false)
    | some aid =>
      let r := P.execAgent aid n1.input
      if r.success then
        ({ n1 with status := NodeStatus.completed, result := some r.result }, true)
      else
        ({ n1 with status := NodeStatus.failed, error := some r.error }, true)
  else if n1.node_type == "tool" then
    match n1.tool_name with
    | none => ({ n1 with
                 status := NodeStatus.failed,
                 error := some "No tool_name specified" }, false)
    | some tname =>
      let r := P.execTool tname n1.input
      if r.success then
        ({ n1 with status := NodeStatus.completed, result := some r.result }, true)
      else
        ({ n1 with status := NodeStatus.failed, error := some r.error }, true)
  else
    ({ n1 with
       status := NodeStatus.failed,
       error := some ("Unknown node type: " ++ n1.node_type) }, false)

/-- One pass of the body of the `for node in ready_nodes` loop for a single
node id: run `_execute_node` on the current node of that id, write the
updated node back into the graph and persist its terminal status. -/
def stepNode (P : Providers) (st : WfState) (node_id : String) : WfState :=
  match st.graph.get_node node_id with
  | none => st
  | some n =>
    let (n', disp) := execute_node P n
    let st1 := { st with
                 graph := st.graph.set_node node_id n',
                 dispatched := st.dispatched ++ (if disp then [node_id] else []) }
    updateDbNodeStatus (updateDbNodeStatus st1 node_id "running")
      node_id (statusValue n'.status)

/-- The `for node in ready_nodes` loop of `_execute_workflow`: execute every
ready node in order; each executed node id is added to the loop-local
`completed_nodes` set regardless of whether it succeeded
(orchestrator.py line 114 adds unconditionally). -/
def execBatch (P : Providers) (st : WfState) (ids : List String) : WfState :=
  ids.foldl (stepNode P) st

/-- `all(node.status in [COMPLETED, SKIPPED, FAILED] for node in nodes)`. -/
def allTerminal (g : Graph) : Bool :=
  g.nodes.all (fun n =>
    n.status == NodeStatus.completed || n.status == NodeStatus.skipped ||
      n.status == NodeStatus.failed)

/-- `_complete_workflow`: persist terminal success. -/
def completeWorkflow (st : WfState) : WfState :=
  { st with wfStatus := "completed" }

/-- `_fail_workflow`: persist terminal failure with the error string. -/
def failWorkflow (st : WfState) (err : String) : WfState :=
  { st with wfStatus := "failed", wfError := some err }

/-- `_handle_hitl_node`: mark the node RUNNING in memory, persist
`waiting_hitl`, and insert a pending `hitl_requests` row.  The source draws
`request_id` from `uuid.uuid4()`; freshness is modelled by deriving it from
the node id, which is unique within the graph. -/
def handleHitlNode (st : WfState) (n : Node) : WfState :=
  let st1 := { st with
    graph := st.graph.set_node n.node_id { n with status := NodeStatus.running } }
  let st2 := updateDbNodeStatus st1 n.node_id "waiting_hitl"
  { st2 with hitl := st2.hitl ++
      [{ request_id := "req_" ++ n.node_id,
         node_id := n.node_id,
         message := (n.message.getD "Approval required"),
         hstatus := "pending",
         responded_by := none,
         response := none }] }

/-- The `while True` scheduler loop of `_execute_workflow`.  `completed`
is the loop-local `completed_nodes` set (it always starts empty, also on
the resume path — see `approve_hitl`).  The loop terminates because every
batch turns at least one PENDING node terminal, so fuel equal to the node
count plus one is always sufficient; the fuel-exhaustion branch returns the
state unchanged and is unreachable from the entry points below. -/
def execLoop (P : Providers) : Nat → WfState → List String → WfState
  | 0, st, _ => st
  | fuel + 1, st, completed =>
    let ready := st.graph.get_ready_nodes completed
    if ready.isEmpty then
      if allTerminal st.graph then
        completeWorkflow st
      else
        let hitlNodes := st.graph.nodes.filter (fun n =>
          n.node_type == "human_in_loop" && n.status == NodeStatus.pending &&
            n.is_ready completed)
        hitlNodes.foldl handleHitlNode st
    else
      let ids := ready.map (fun n => n.node_id)
      execLoop P fuel (execBatch P st ids) (completed ++ ids)

/-- One background-thread invocation of `_execute_workflow`: run the
scheduler loop from an empty `completed_nodes` set, then the `finally`
block pops the workflow from `_active_workflows` when its persisted status
is terminal. -/
def execWorkflowRun (P : Providers) (st : WfState) : WfState :=
  let st' := execLoop P (st.graph.nodes.length + 1) st []
  if st'.wfStatus == "completed" || st'.wfStatus == "failed" then
    { st' with active := false }
  else st'

/-- `start_workflow`: persist the workflow row as `running`, snapshot the
node statuses into `workflow_nodes`, register the graph as active, and run
the execution loop (the source spawns it on a daemon thread; the single
worker is modelled synchronously). -/
def startWorkflow (P : Providers) (g : Graph) : WfState :=
  execWorkflowRun P
    { graph := g,
      wfStatus := "running",
      wfError := none,
      dbNodeStatus := g.nodes.map (fun n => (n.node_id, statusValue n.status)),
      hitl := [],
      active := true,
      dispatched := [] }

/-- The `\x7bapproved: true, response\x7d` result recorded on an approved HITL
node. -/
def approvalVal (response : String) : Val :=
  Val.vObj [("approved", Val.vBool true), ("response", Val.vStr response)]

/-- `WorkflowOrchestrator.approve_hitl`: mark the request approved, and if
it exists, persist the node as `completed`, set the in-memory node to
COMPLETED with the approval result when the workflow is still active, and
re-spawn `_execute_workflow` — which restarts the scheduler loop with a
fresh, empty `completed_nodes` set. -/
def approve_hitl (P : Providers) (st : WfState)
    (request_id user_id response : String) : Bool × WfState :=
  let hitl' := st.hitl.map (fun r =>
    if r.request_id == request_id then
      { r with
        hstatus := "approved", responded_by := some user_id,
        response := some response }
    else r)
  let st1 := { st with hitl := hitl' }
  match hitl'.find? (fun r => r.request_id == request_id) with
  | none => (false, st1)
  | some req =>
    let st2 := updateDbNodeStatus st1 req.node_id "completed"
    if st2.active then
      let g' := match st2.graph.get_node req.node_id with
        | some n => st2.graph.set_node req.node_id
            { n with
              status := NodeStatus.completed,
              result := some (approvalVal response) }
        | none => st2.graph
      (true, execWorkflowRun P { st2 with graph := g' })
    else
      (true, st2)

/-- `WorkflowOrchestrator.reject_hitl`: mark the request rejected and fail
the whole workflow with `HITL rejected: <reason>`; the node itself is not
touched. -/
def reject_hitl (st : WfState) (request_id user_id reason : String) :
    Bool × WfState :=
  let hitl' := st.hitl.map (fun r =>
    if r.request_id == request_id then
      { r with
        hstatus := "rejected", responded_by := some user_id,
        response := some reason }
    else r)
  (true, failWorkflow { st with hitl := hitl' } ("HITL rejected: " ++ reason))

/-- An external operation on a started workflow: the only external triggers
the orchestrator exposes after `start_workflow` are HITL approval and
rejection. -/
inductive WfOp where
  | approve (request_id user_id response : String) : WfOp
  | reject (request_id user_id reason : String) : WfOp

/-- Apply a sequence of external operations to a workflow state. -/
def runOps (P : Providers) (st : WfState) : List WfOp → WfState
  | [] => st
  | WfOp.approve rid uid resp :: rest =>
    runOps P (approve_hitl P st rid uid resp).2 rest
  | WfOp.reject rid uid reason :: rest =>
    runOps P (reject_hitl st rid uid reason).2 rest

/-- Status of the node with the given id, as the in-memory graph holds it. -/
def nodeStatus (st : WfState) (node_id : String) : Option NodeStatus :=
  (st.graph.get_node node_id).map (fun n => n.status)

/-- Result of the node with the given id, as the in-memory graph holds it. -/
def nodeResult (st : WfState) (node_id : String) : Option Val :=
  (st.graph.get_node node_id).bind (fun n => n.result)

/-! ## Autonomous planner (`workflows/lgraph/lgraph_planner.py`)

The planner's execution engine works on Python dictionaries; steps and the
execution plan are embedded as structures whose fields are exactly the
dictionary keys the engine reads.  The agent/tool registries
(`agents/agent_registry.py`, `tools/tool_registry.py`) are embedded with
their registered capabilities as parameters; `executed_at` timestamps are
omitted. -/

/-- `PlanType` (lgraph_planner.py). -/
inductive PlanType where
  | use_existing_dag : PlanType
  | create_stategraph : PlanType
  | simple_execution : PlanType
deriving DecidableEq, Repr

/-- `PlanType(s)`: Python's value-backed enum constructor; `none` models the
`ValueError` it raises on an unknown string. -/
def planTypeOfString : String → Option PlanType
  | "use_existing_dag" => some PlanType.use_existing_dag
  | "create_stategraph" => some PlanType.create_stategraph
  | "simple_execution" => some PlanType.simple_execution
  | _ => none

/-- A step of a synthesized plan, with exactly the dictionary keys the
execution engine reads (`step_id`, `name`, `type`, `agent_id`,
`tool_name`, `input`, `dependencies`, `use_previous_result`); a key the
planning strategy did not emit is `none`/`false`, matching `dict.get`. -/
structure Step where
  step_id : String
  name : String
  type : String
  agent_id : Option String
  tool_name : Option String
  input : List (String × Val)
  dependencies : List String
  use_previous_result : Bool

/-- The `execution_plan` dictionary built by `_construct_stategraph_plan`
(the keys the engine reads). -/
structure ExecPlan where
  type : String
  execution_mode : String
  steps : List Step
  hitl_checkpoints : List String
  loop_config : Option Nat

/-- The slice of the planner's `WorkflowState` that the step-execution
engine reads and writes.  `loop_state` is a dictionary in the source; its
two keys `max_iterations` and `current_iteration` are flattened into
optional fields, `none` standing for an absent key (so `dict.get`
defaults of 5 and 0 apply).  `step_log` instruments the
`_log_step_execution` inserts into `lgraph_step_logs` (step id and result,
in execution order). -/
structure LgState where
  current_step : Nat
  completed_steps : List String
  step_results : List (String × List (String × Val))
  loop_max_iterations : Option Nat
  loop_current_iteration : Option Nat
  status : String
  step_log : List (String × List (String × Val))

/-- The capabilities registered in the agent and tool registries: maps from
identifier to the underlying `execute` method. -/
structure Registries where
  agents : List (String × (List (String × Val) → List (String × Val)))
  tools : List (String × (List (String × Val) → List (String × Val)))

/-- `AgentRegistry.execute_agent` (agents/agent_registry.py): wraps the
agent's own result under the `result` key on success; unknown ids produce
the `Agent not found` error dictionary.  The registered agents are total
functions, so the `except` branch of the source is unreachable here. -/
def registry_execute_agent (regs : Registries) (agent_id : String)
    (input_data : List (String × Val)) : List (String × Val) :=
  match regs.agents.lookup agent_id with
  | none => [("success", Val.vBool false),
             ("error", Val.vStr ("Agent not found: " ++ agent_id))]
  | some f => [("success", Val.vBool true),
               ("result", Val.vObj (f input_data)),
               ("agent_id", Val.vStr agent_id)]

/-- `ToolRegistry.execute_tool` (tools/tool_registry.py), same shape as the
agent registry with `tool_name` in place of `agent_id`. -/
def registry_execute_tool (regs : Registries) (tool_name : String)
    (input_data : List (String × Val)) : List (String × Val) :=
  match regs.tools.lookup tool_name with
  | none => [("success", Val.vBool false),
             ("error", Val.vStr ("Tool not found: " ++ tool_name))]
  | some f => [("success", Val.vBool true),
               ("result", Val.vObj (f input_data)),
               ("tool_name", Val.vStr tool_name)]

/-- `EchoAgent.execute` (agents/echo_agent.py): echoes
`input_data.get('input', 'No input provided')` together with its own
agent id. -/
def echo_agent_execute (agent_id : String)
    (input_data : List (String × Val)) : List (String × Val) :=
  [("success", Val.vBool true),
   ("echo", (input_data.lookup "input").getD (Val.vStr "No input provided")),
   ("agent", Val.vStr agent_id)]

/-- `LangGraphPlanner._execute_step`: dispatch on the step type, merging
previous results into the input when `use_previous_result` is set (later
dependencies overwrite earlier ones, as the source's loop does). -/
def execute_step (regs : Registries) (step : Step)
    (previous_results : List (String × List (String × Val))) :
    List (String × Val) :=
  if step.type == "agent" then
    let input_data :=
      if step.use_previous_result then
        step.dependencies.foldl (fun acc dep =>
          match previous_results.lookup dep with
          | some r => dictSet acc "previous_result" (Val.vObj r)
          | none => acc) step.input
      else step.input
    match step.agent_id with
    | some aid => registry_execute_agent regs aid input_data
    | none => [("success", Val.vBool false),
               ("error", Val.vStr "Agent not found: None")]
  else if step.type == "tool" then
    match step.tool_name with
    | some tname => registry_execute_tool regs tname step.input
    | none => [("success", Val.vBool false),
               ("error", Val.vStr "Tool not found: None")]
  else
    [("success", Val.vBool false),
     ("error", Val.vStr ("Unknown step type: " ++ step.type))]

/-- The scan of `_execute_sequential_steps` over the step list: skip steps
already in `completed_steps`, execute the first remaining step whose
dependencies are all in `completed_steps` and stop, or fall through to the
`for`-`else` branch that marks the state completed.  `allLen` is the length
of the full step list (used by the completion check) and `i` the running
index (used for `current_step`). -/
def seqScan (regs : Registries) (allLen : Nat) :
    LgState → List Step → Nat → LgState
  | st, [], _ => { st with status := "completed" }
  | st, stp :: rest, i =>
    if st.completed_steps.contains stp.step_id then
      seqScan regs allLen st rest (i + 1)
    else if stp.dependencies.all (st.completed_steps.contains ·) then
      let result := execute_step regs stp st.step_results
      let completed' := st.completed_steps ++ [stp.step_id]
      { st with
        completed_steps := completed',
        step_results := dictSet st.step_results stp.step_id result,
        step_log := st.step_log ++ [(stp.step_id, result)],
        current_step := i + 1,
        status := if completed'.length < allLen then "running" else "completed" }
    else
      seqScan regs allLen st rest (i + 1)

/-- `LangGraphPlanner._execute_sequential_steps`. -/
def execSeq (regs : Registries) (st : LgState) (steps : List Step) : LgState :=
  seqScan regs steps.length st steps 0

/-- The scan of `_execute_parallel_steps`: execute, in list order, every
step not yet completed whose dependencies are satisfied at the moment it is
reached (`completed_steps` grows during the scan, exactly as in the
source's single `for` loop). -/
def parScan (regs : Registries) : LgState → List Step → LgState
  | st, [] => st
  | st, stp :: rest =>
    if st.completed_steps.contains stp.step_id then
      parScan regs st rest
    else if stp.dependencies.all (st.completed_steps.contains ·) then
      let result := execute_step regs stp st.step_results
      parScan regs
        { st with
          completed_steps := st.completed_steps ++ [stp.step_id],
          step_results := dictSet st.step_results stp.step_id result,
          step_log := st.step_log ++ [(stp.step_id, result)] } rest
    else
      parScan regs st rest

/-- `LangGraphPlanner._execute_parallel_steps`: one scan over the steps,
then the completion check `len(completed_steps) >= len(steps)`. -/
def execPar (regs : Registries) (st : LgState) (steps : List Step) : LgState :=
  let st' := parScan regs st steps
  { st' with
    status := if steps.length ≤ st'.completed_steps.length
              then "completed" else "running" }

/-- `LangGraphPlanner._execute_loop_steps`: stop (reporting completed) once
the iteration counter has reached `max_iterations`; otherwise run one
sequential pass, increment the counter, and if the pass reported
completion, reset `completed_steps` and `current_step` for the next
iteration. -/
def execLoopSteps (regs : Registries) (st : LgState) (steps : List Step) :
    LgState :=
  let max_iterations := st.loop_max_iterations.getD 5
  let current_iteration := st.loop_current_iteration.getD 0
  if max_iterations ≤ current_iteration then
    { st with status := "completed" }
  else
    let st1 := execSeq regs st steps
    let st2 := { st1 with loop_current_iteration := some (current_iteration + 1) }
    if st2.status == "completed" then
      { st2 with completed_steps := [], current_step := 0, status := "running" }
    else
      st2

/-- `LangGraphPlanner._execute_conditional_steps`: implemented in the
source as a call to the sequential executor (branch conditions are never
evaluated). -/
def execConditional (regs : Registries) (st : LgState) (steps : List Step) :
    LgState :=
  execSeq regs st steps

/-- `LangGraphPlanner._execute_stategraph_plan`: dispatch on the plan's
`execution_mode`, defaulting to sequential.  The `plan` argument is the
details dictionary the function reads from the state; the
`state["execution_plan"]["details"]` lookup that produces it (and that can
fail) is modelled separately by `PlanSlot.getDetails` below. -/
def execStategraph (regs : Registries) (st : LgState) (plan : ExecPlan) :
    LgState :=
  if plan.execution_mode == "parallel" then execPar regs st plan.steps
  else if plan.execution_mode == "loop" then execLoopSteps regs st plan.steps
  else if plan.execution_mode == "conditional" then
    execConditional regs st plan.steps
  else execSeq regs st plan.steps

/-- Iterate the loop-mode executor, as the supervisor graph's
`execute_plan → continue → execute_plan` edge would. -/
def loopRun (regs : Registries) (steps : List Step) :
    Nat → LgState → LgState
  | 0, st => st
  | k + 1, st => loopRun regs steps k (execLoopSteps regs st steps)

/-- The structured decision `_decide_strategy` expects from the planning
strategy (`strategy`, `selected_dag_id`, `execution_mode`; the remaining
keys of the prompt's schema are never read). -/
structure StrategyDecision where
  strategy : String
  selected_dag_id : Option String
  execution_mode : String

/-- The planning fields of the planner's `WorkflowState` that
`_decide_strategy` writes: `plan_type`, `selected_dag_id`, and the
strategy dictionary stored in `execution_plan["strategy"]` (of which the
engine later reads only `execution_mode`). -/
structure PlanCtx where
  plan_type : Option PlanType
  selected_dag_id : Option String
  strategy_execution_mode : Option String

/-- `LangGraphPlanner._decide_strategy`.  The `parsed` argument is the
outcome of the `json.loads` call on the planning-strategy output: `none`
for every output that is not parseable JSON (the `except` branch), in
which case the hard-coded fallback decision
(strategy `create_stategraph`, execution mode `sequential`) is used.
`Except.error` models the `ValueError` that `PlanType(...)` would raise on
a parseable decision carrying an unknown strategy string. -/
def decide_strategy (parsed : Option StrategyDecision) (ctx : PlanCtx) :
    Except String PlanCtx :=
  let decision := parsed.getD
    { strategy := "create_stategraph",
      selected_dag_id := none,
      execution_mode := "sequential" }
  match planTypeOfString decision.strategy with
  | none => Except.error ("ValueError: " ++ decision.strategy)
  | some pt => Except.ok
      { ctx with
        plan_type := some pt,
        selected_dag_id := decision.selected_dag_id,
        strategy_execution_mode := some decision.execution_mode }

/-- The fallback execution plan of `_construct_stategraph_plan` (its
`except` branch): a single agent step targeting the first available agent
(or `echo_agent` when none is available) with the whole user request as
input under the `request` key.  `execution_mode` is
`strategy.get("execution_mode", "sequential")` as computed by the caller. -/
def fallback_stategraph_plan (user_request : String)
    (available_agents : List String) (execution_mode : String) : ExecPlan :=
  { type := "stategraph",
    execution_mode := execution_mode,
    steps := [{ step_id := "step_1",
                name := "Execute request",
                type := "agent",
                agent_id := some (available_agents.headD "echo_agent"),
                tool_name := none,
                input := [("request", Val.vStr user_request)],
                dependencies := [],
                use_previous_result := false }],
    hitl_checkpoints := [],
    loop_config := none }

/-! ### Persistence rows of the autonomous planner -/

/-- An `lgraph_plans` row (the columns the public API reads/writes). -/
structure LgPlanRec where
  plan_id : String
  pstatus : String
deriving DecidableEq, Repr

/-- An `lgraph_workflows` row. -/
structure LgWorkflowRec where
  workflow_id : String
  wstatus : String
  werror : Option String
deriving DecidableEq, Repr

/-- An `lgraph_step_logs` row. -/
structure LgStepLogRec where
  workflow_id : String
  step_id : String
  success : Bool
deriving DecidableEq, Repr

/-- An `lgraph_hitl_requests` row (timestamps omitted). -/
structure LgHitlRec where
  hitl_id : String
  workflow_id : String
  plan_id : String
  checkpoint : String
  message : String
  hstatus : String
  responded_by : Option String
  response : Option String
deriving DecidableEq, Repr

/-- The four planner tables of the database. -/
structure LgDb where
  lgraph_plans : List LgPlanRec
  lgraph_workflows : List LgWorkflowRec
  lgraph_step_logs : List LgStepLogRec
  lgraph_hitl_requests : List LgHitlRec
deriving DecidableEq, Repr

/-- `LangGraphPlanner.approve_hitl`: a single `db.update` on
`lgraph_hitl_requests` keyed by `hitl_id`, then `return True`.  The source
contains no further statement (the comment `In production, would trigger
continuation of the workflow` marks resumption as not implemented). -/
def lgraph_approve_hitl (db : LgDb) (hitl_id user_id response : String) :
    Bool × LgDb :=
  let recs := db.lgraph_hitl_requests.map (fun r =>
    if r.hitl_id == hitl_id then
      { r with
        hstatus := "approved",
        responded_by := some user_id,
        response := some response }
    else r)
  (true, { db with lgraph_hitl_requests := recs })

/-- `LangGraphPlanner.reject_hitl`: mark the request rejected, then mark
the owning workflow failed with `HITL rejected: <reason>`. -/
def lgraph_reject_hitl (db : LgDb) (hitl_id user_id reason : String) :
    Bool × LgDb :=
  let recs := db.lgraph_hitl_requests.map (fun r =>
    if r.hitl_id == hitl_id then
      { r with
        hstatus := "rejected",
        responded_by := some user_id,
        response := some reason }
    else r)
  let db1 := { db with lgraph_hitl_requests := recs }
  match recs.find? (fun r => r.hitl_id == hitl_id) with
  | none => (true, db1)
  | some req =>
    (true, { db1 with lgraph_workflows := db1.lgraph_workflows.map (fun w =>
        if w.workflow_id == req.workflow_id then
          { w with
            wstatus := "failed",
            werror := some ("HITL rejected: " ++ reason) }
        else w) })

/-- The first step in list order that is not yet in `completed_steps` and
whose dependencies are all in `completed_steps` — the claim-side
characterization of what a sequential invocation executes, stated from the
spec's words for comparison with `execSeq`. -/
def specFirstReadyStep (completed : List String) (steps : List Step) :
    Option Step :=
  steps.find? (fun s =>
    !(completed.contains s.step_id) &&
      s.dependencies.all (completed.contains ·))

/-! ## Concrete scenario instances -/

/-- An agent node in PENDING state (the shape `start_workflow` receives). -/
def mkAgentNode (id : String) (aid : String) (deps : List String) : Node :=
  { node_id := id, node_type := "agent", agent_id := some aid,
    tool_name := none, input := [], message := none, dependencies := deps,
    status := NodeStatus.pending, result := none, error := none }

/-- A human-in-the-loop node in PENDING state. -/
def mkHitlNode (id : String) (deps : List String) : Node :=
  { node_id := id, node_type := "human_in_loop", agent_id := none,
    tool_name := none, input := [], message := none, dependencies := deps,
    status := NodeStatus.pending, result := none, error := none }

/-- Capability providers for the scenarios: every agent succeeds except
`failing_agent`, which reports `success: false`. -/
def demoProviders : Providers :=
  { execAgent := fun aid _ =>
      if aid == "failing_agent" then
        { success := false, result := Val.vNull, error := "boom" }
      else
        { success := true, result := Val.vStr "ok", error := "" },
    execTool := fun _ _ =>
      { success := true, result := Val.vNull, error := "" } }

/-- Two-node chain for the skip-propagation claim: `A` (whose agent fails)
and `B` depending on `A`. -/
def graphFailDep : Graph :=
  ⟨[mkAgentNode "A" "failing_agent" [], mkAgentNode "B" "ok_agent" ["A"]]⟩

/-- Three-node chain for the HITL claims:
`A` (agent) → `H` (human_in_loop) → `B` (agent). -/
def graphHitlChain : Graph :=
  ⟨[mkAgentNode "A" "ok_agent" [], mkHitlNode "H" ["A"],
    mkAgentNode "B" "ok_agent" ["H"]]⟩

/-- The suspended state of `graphHitlChain` after `start_workflow`: `A`
completed, `H` waiting on the pending request `req_H`, `B` pending. -/
def suspendedChain : WfState := startWorkflow demoProviders graphHitlChain

/-- C1.  The claim asserts that a dependent of a FAILED node is never
dispatched and terminates SKIPPED, equivalently that the scheduler adds a
node id to `completed_ids` only on success.  On `graphFailDep` the agent of
`A` fails, yet orchestrator.py line 114 adds `A` to `completed_nodes`
unconditionally, so `B` becomes ready, is dispatched to its capability
provider (the dispatch trace is `[A, B]`), and terminates COMPLETED — no
node is ever marked SKIPPED. -/
theorem c1_failed_node_dependents_dispatched :
    nodeStatus (startWorkflow demoProviders graphFailDep) "A" =
      some NodeStatus.failed ∧
    (startWorkflow demoProviders graphFailDep).dispatched = ["A", "B"] ∧
    nodeStatus (startWorkflow demoProviders graphFailDep) "B" =
      some NodeStatus.completed ∧
    nodeStatus (startWorkflow demoProviders graphFailDep) "B" ≠
      some NodeStatus.skipped := by
  refine ⟨by decide, by decide, by decide, by decide⟩

/-- C2.  The claim asserts that `approve_hitl` restarts the scheduler loop
from the current `completed_ids`, so dependents of the approved node are
dispatched.  On `graphHitlChain`, approval does mark `H` COMPLETED with
the `\x7bapproved: true, response\x7d` result, but the re-spawned
`_execute_workflow` starts from an empty `completed_nodes` set, so `B`
(whose only dependency `H` is COMPLETED) is never ready: the dispatch
trace stays `[A]`, `B` stays PENDING and the workflow remains `running`
forever. -/
theorem c2_hitl_resume_drops_completed_ids :
    (approve_hitl demoProviders suspendedChain "req_H" "u1" "yes").1 = true ∧
    nodeStatus (approve_hitl demoProviders suspendedChain "req_H" "u1" "yes").2 "H" =
      some NodeStatus.completed ∧
    nodeResult (approve_hitl demoProviders suspendedChain "req_H" "u1" "yes").2 "H" =
      some (approvalVal "yes") ∧
    nodeStatus (approve_hitl demoProviders suspendedChain "req_H" "u1" "yes").2 "B" =
      some NodeStatus.pending ∧
    (approve_hitl demoProviders suspendedChain "req_H" "u1" "yes").2.dispatched =
      ["A"] ∧
    (approve_hitl demoProviders suspendedChain "req_H" "u1" "yes").2.wfStatus =
      "running" := by
  refine ⟨by decide, by decide, rfl, by decide, by decide, by decide⟩

/-- Suspended two-node state for the rejection claim: `A` completed, the
HITL node `H` waiting on the pending request `req_H`. -/
def suspendedPair : WfState :=
  startWorkflow demoProviders ⟨[mkAgentNode "A" "ok_agent" [], mkHitlNode "H" ["A"]]⟩

/-- C3 counterexample.  The claim asserts `reject_hitl` marks the
`human_in_loop` node FAILED.  Rejecting the pending request of
`suspendedPair` fails the workflow but leaves the node's status exactly
where it was: RUNNING in memory and `waiting_hitl` in the database — not
FAILED. -/
theorem c3_reject_leaves_node_status :
    (reject_hitl suspendedPair "req_H" "u1" "no-go").2.wfStatus = "failed" ∧
    nodeStatus (reject_hitl suspendedPair "req_H" "u1" "no-go").2 "H" =
      some NodeStatus.running ∧
    nodeStatus (reject_hitl suspendedPair "req_H" "u1" "no-go").2 "H" ≠
      some NodeStatus.failed ∧
    ((reject_hitl suspendedPair "req_H" "u1" "no-go").2.dbNodeStatus.lookup "H") =
      some "waiting_hitl" := by
  refine ⟨by decide, by decide, by decide, by decide⟩

/-- C3 (amended).  `reject_hitl` marks the HITL request rejected and the
owning workflow FAILED with `HITL rejected: <reason>` as its error, but
does not touch any node: the in-memory graph and the persisted node
statuses are unchanged (in particular the node is neither marked FAILED
nor COMPLETED by the rejection), and no capability is invoked. -/
theorem c3_reject_fails_workflow_not_node (st : WfState)
    (rid uid reason : String) :
    (reject_hitl st rid uid reason).1 = true ∧
    (reject_hitl st rid uid reason).2.wfStatus = "failed" ∧
    (reject_hitl st rid uid reason).2.wfError =
      some ("HITL rejected: " ++ reason) ∧
    (reject_hitl st rid uid reason).2.graph = st.graph ∧
    (reject_hitl st rid uid reason).2.dbNodeStatus = st.dbNodeStatus ∧
    (reject_hitl st rid uid reason).2.dispatched = st.dispatched ∧
    (reject_hitl st rid uid reason).2.hitl = st.hitl.map (fun r =>
      if r.request_id == rid then
        { r with
          hstatus := "rejected", responded_by := some uid,
          response := some reason }
      else r) := by
  exact ⟨rfl, rfl, rfl, rfl, rfl, rfl, rfl⟩

/-! ## No-double-dispatch invariant (claim C4, DAG orchestrator) -/

/-- The dispatch invariant of the orchestrator: node ids are unique in the
graph (the Graph contract rejects duplicate ids), the dispatch trace has no
duplicates, and every node whose id has been dispatched is no longer
PENDING.  Since every dispatch targets a PENDING node and leaves it
terminal, this is preserved by every operation of the orchestrator. -/
def DispatchInv (st : WfState) : Prop :=
  (st.graph.nodes.map (fun n => n.node_id)).Nodup ∧
  st.dispatched.Nodup ∧
  ∀ n ∈ st.graph.nodes, n.node_id ∈ st.dispatched → n.status ≠ NodeStatus.pending

theorem execute_node_node_id (P : Providers) (n : Node) :
    (execute_node P n).1.node_id = n.node_id := by
  unfold execute_node
  dsimp only
  repeat' split
  all_goals rfl

theorem execute_node_not_pending (P : Providers) (n : Node) :
    (execute_node P n).1.status ≠ NodeStatus.pending := by
  unfold execute_node
  dsimp only
  repeat' split
  all_goals simp

theorem set_node_map_id (g : Graph) (id : String) (n' : Node)
    (h : n'.node_id = id) :
    (g.set_node id n').nodes.map (fun n => n.node_id) =
      g.nodes.map (fun n => n.node_id) := by
  unfold Graph.set_node
  rw [List.map_map]
  apply List.map_congr_left
  intro a _
  by_cases hb : a.node_id = id
  · simp [hb, h]
  · simp [hb]

theorem mem_set_node {g : Graph} {id : String} {n' m : Node}
    (h : m ∈ (g.set_node id n').nodes) :
    m = n' ∨ (m ∈ g.nodes ∧ m.node_id ≠ id) := by
  unfold Graph.set_node at h
  obtain ⟨a, ha, heq⟩ := List.mem_map.mp h
  by_cases hb : a.node_id = id
  · left
    rw [← heq]
    simp [hb]
  · right
    rw [← heq]
    simp only [hb, beq_iff_eq, if_neg]
    exact ⟨ha, hb⟩

theorem mem_set_node_of_ne {g : Graph} {id : String} {n' a : Node}
    (ha : a ∈ g.nodes) (hne : a.node_id ≠ id) :
    a ∈ (g.set_node id n').nodes := by
  unfold Graph.set_node
  refine List.mem_map.mpr ⟨a, ha, ?_⟩
  simp [hne]

theorem get_node_eq {g : Graph} {id : String} {n : Node}
    (h : g.get_node id = some n) : n ∈ g.nodes ∧ n.node_id = id := by
  unfold Graph.get_node at h
  exact ⟨List.mem_of_find?_eq_some h,
    by simpa using List.find?_some h⟩

theorem stepNode_inv (P : Providers) (st : WfState) (id : String)
    (hInv : DispatchInv st)
    (hpend : ∀ n ∈ st.graph.nodes, n.node_id = id →
      n.status = NodeStatus.pending) :
    DispatchInv (stepNode P st id) := by
  obtain ⟨hIds, hNodup, hDisp⟩ := hInv
  unfold stepNode
  cases hfind : st.graph.get_node id with
  | none => exact ⟨hIds, hNodup, hDisp⟩
  | some n =>
    obtain ⟨hmem, hid⟩ := get_node_eq hfind
    have hnp : n.status = NodeStatus.pending := hpend n hmem hid
    have hidnotdisp : id ∉ st.dispatched := by
      intro hin
      exact hDisp n hmem (hid ▸ hin) hnp
    have hexecid : (execute_node P n).1.node_id = id :=
      (execute_node_node_id P n).trans hid
    unfold updateDbNodeStatus
    dsimp only
    refine ⟨?_, ?_, ?_⟩
    · rw [set_node_map_id _ _ _ hexecid]
      exact hIds
    · cases hb : (execute_node P n).2 with
      | false => simpa using hNodup
      | true =>
        simp only [if_pos rfl]
        refine List.Nodup.append hNodup (List.nodup_singleton id) ?_
        intro a ha hb'
        have hb'' : a = id := by simpa using hb'
        exact hidnotdisp (hb'' ▸ ha)
    · intro m hm hmm
      rcases mem_set_node hm with rfl | ⟨hmold, hmne⟩
      · exact execute_node_not_pending P n
      · have hmm' : m.node_id ∈ st.dispatched := by
          cases hb : (execute_node P n).2 with
          | false =>
            rw [hb] at hmm
            simpa using hmm
          | true =>
            rw [hb] at hmm
            simp only [if_pos rfl] at hmm
            rcases List.mem_append.mp hmm with h' | h'
            · exact h'
            · exact absurd (List.mem_singleton.mp h') hmne
        exact hDisp m hmold hmm'

theorem stepNode_mem (P : Providers) (st : WfState) (id : String) :
    ∀ m ∈ (stepNode P st id).graph.nodes,
      m ∈ st.graph.nodes ∨ m.node_id = id := by
  unfold stepNode
  cases hfind : st.graph.get_node id with
  | none => exact fun m hm => Or.inl hm
  | some n =>
    intro m hm
    obtain ⟨_, hid⟩ := get_node_eq hfind
    rcases mem_set_node hm with rfl | ⟨hmold, _⟩
    · exact Or.inr ((execute_node_node_id P n).trans hid)
    · exact Or.inl hmold

theorem execBatch_inv (P : Providers) :
    ∀ (ids : List String) (st : WfState), DispatchInv st → ids.Nodup →
    (∀ id ∈ ids, ∀ n ∈ st.graph.nodes, n.node_id = id →
      n.status = NodeStatus.pending) →
    DispatchInv (execBatch P st ids) := by
  intro ids
  induction ids with
  | nil => exact fun st h _ _ => h
  | cons id rest ih =>
    intro st hInv hNodup hpend
    have hstep := stepNode_inv P st id hInv
      (fun n hn hid => hpend id (List.mem_cons_self _ _) n hn hid)
    have hrest : ∀ id' ∈ rest, ∀ n ∈ (stepNode P st id).graph.nodes,
        n.node_id = id' → n.status = NodeStatus.pending := by
      intro id' hid' n hn hid''
      have hne : id' ≠ id := by
        intro rfl'
        exact (List.nodup_cons.mp hNodup).1 (rfl' ▸ hid')
      rcases stepNode_mem P st id n hn with hold | hcase
      · exact hpend id' (List.mem_cons_of_mem _ hid') n hold hid''
      · exact absurd (hid'' ▸ hcase) hne
    exact ih (stepNode P st id) hstep (List.nodup_cons.mp hNodup).2 hrest

theorem handleHitlNode_inv (st : WfState) (n : Node)
    (hInv : DispatchInv st) : DispatchInv (handleHitlNode st n) := by
  obtain ⟨hIds, hNodup, hDisp⟩ := hInv
  unfold handleHitlNode updateDbNodeStatus
  refine ⟨?_, hNodup, ?_⟩
  · simpa [set_node_map_id _ _ _ (rfl : ({ n with status := NodeStatus.running } : Node).node_id = n.node_id)]
      using hIds
  · intro m hm hmm
    rcases mem_set_node hm with rfl | ⟨hmold, _⟩
    · simp
    · exact hDisp m hmold hmm

theorem foldl_handleHitlNode_inv :
    ∀ (l : List Node) (st : WfState), DispatchInv st →
      DispatchInv (l.foldl handleHitlNode st) := by
  intro l
  induction l with
  | nil => exact fun st h => h
  | cons n rest ih => exact fun st h => ih _ (handleHitlNode_inv st n h)

theorem ready_pending {g : Graph} {completed : List String} {n : Node}
    (h : n ∈ g.get_ready_nodes completed) :
    n ∈ g.nodes ∧ n.status = NodeStatus.pending := by
  unfold Graph.get_ready_nodes at h
  have hmem := List.mem_of_mem_filter h
  have hp := List.of_mem_filter h
  simp only [Bool.and_eq_true, Node.is_ready, beq_iff_eq] at hp
  exact ⟨hmem, hp.1.1⟩

theorem execLoop_inv (P : Providers) :
    ∀ (fuel : Nat) (st : WfState) (completed : List String),
      DispatchInv st → DispatchInv (execLoop P fuel st completed) := by
  intro fuel
  induction fuel with
  | zero => exact fun st _ h => h
  | succ fuel ih =>
    intro st completed hInv
    simp only [execLoop]
    split
    · split
      · exact hInv
      · exact foldl_handleHitlNode_inv _ _ hInv
    · apply ih
      apply execBatch_inv P _ _ hInv
      · have hsub : ((st.graph.get_ready_nodes completed).map
            (fun n => n.node_id)).Sublist
            (st.graph.nodes.map (fun n => n.node_id)) :=
          (List.filter_sublist _).map _
        exact hInv.1.sublist hsub
      · intro id hid n hn hnid
        obtain ⟨m, hm, hmid⟩ := List.mem_map.mp hid
        obtain ⟨hmmem, hmpend⟩ := ready_pending hm
        have : n = m :=
          List.inj_on_of_nodup_map hInv.1 hn hmmem (hnid.trans hmid.symm)
        exact this ▸ hmpend

theorem execWorkflowRun_inv (P : Providers) (st : WfState)
    (hInv : DispatchInv st) : DispatchInv (execWorkflowRun P st) := by
  unfold execWorkflowRun
  dsimp only
  split
  · exact execLoop_inv P _ st [] hInv
  · exact execLoop_inv P _ st [] hInv

theorem approve_hitl_inv (P : Providers) (st : WfState)
    (rid uid resp : String) (hInv : DispatchInv st) :
    DispatchInv (approve_hitl P st rid uid resp).2 := by
  obtain ⟨hIds, hNodup, hDisp⟩ := hInv
  unfold approve_hitl updateDbNodeStatus
  dsimp only
  split
  · exact ⟨hIds, hNodup, hDisp⟩
  · rename_i req hfind
    split
    · apply execWorkflowRun_inv
      split
      · rename_i n hget
        obtain ⟨hmem, hid⟩ := get_node_eq hget
        refine ⟨?_, hNodup, ?_⟩
        · rw [set_node_map_id]
          · exact hIds
          · exact hid
        · intro m hm hmm
          rcases mem_set_node hm with rfl | ⟨hmold, _⟩
          · simp
          · exact hDisp m hmold hmm
      · exact ⟨hIds, hNodup, hDisp⟩
    · exact ⟨hIds, hNodup, hDisp⟩

theorem reject_hitl_inv (st : WfState) (rid uid reason : String)
    (hInv : DispatchInv st) : DispatchInv (reject_hitl st rid uid reason).2 :=
  hInv

theorem runOps_inv (P : Providers) :
    ∀ (ops : List WfOp) (st : WfState), DispatchInv st →
      DispatchInv (runOps P st ops) := by
  intro ops
  induction ops with
  | nil => exact fun st h => h
  | cons op rest ih =>
    intro st h
    cases op with
    | approve rid uid resp => exact ih _ (approve_hitl_inv P st rid uid resp h)
    | reject rid uid reason => exact ih _ (reject_hitl_inv st rid uid reason h)

/-- C4.  For every capability provider, every graph with unique node ids,
and every sequence of external HITL operations (including approvals that
re-spawn the scheduler across a suspend/resume boundary), the trace of
capability invocations recorded by a full workflow run contains each node
id at most once: the scheduler only dispatches PENDING nodes, dispatch
leaves a node terminal, and no operation ever returns a node to PENDING. -/
theorem c4_no_double_dispatch (P : Providers) (g : Graph) (ops : List WfOp)
    (h : (g.nodes.map (fun n => n.node_id)).Nodup) :
    (runOps P (startWorkflow P g) ops).dispatched.Nodup := by
  have h0 : DispatchInv
      { graph := g, wfStatus := "running", wfError := none,
        dbNodeStatus := g.nodes.map (fun n => (n.node_id, statusValue n.status)),
        hitl := [], active := true, dispatched := [] } :=
    ⟨h, List.nodup_nil, fun n _ hmem => absurd hmem (List.not_mem_nil _)⟩
  exact (runOps_inv P ops _ (execWorkflowRun_inv P _ h0)).2.1

/-- C4 witness: on the HITL chain with an approval crossing the
suspend/resume boundary, the dispatch trace is duplicate-free. -/
theorem c4_no_double_dispatch_witness :
    (graphHitlChain.nodes.map (fun n => n.node_id)).Nodup ∧
    (runOps demoProviders (startWorkflow demoProviders graphHitlChain)
      [WfOp.approve "req_H" "u1" "yes"]).dispatched.Nodup :=
  ⟨by decide,
   c4_no_double_dispatch demoProviders graphHitlChain
     [WfOp.approve "req_H" "u1" "yes"] (by decide)⟩

/-! ## Sequential execution characterization (claim C5) -/

theorem seqScan_spec (regs : Registries) (allLen : Nat) :
    ∀ (steps : List Step) (st : LgState) (i : Nat),
      (specFirstReadyStep st.completed_steps steps = none →
        seqScan regs allLen st steps i = { st with status := "completed" }) ∧
      (∀ stp, specFirstReadyStep st.completed_steps steps = some stp →
        (seqScan regs allLen st steps i).completed_steps =
          st.completed_steps ++ [stp.step_id] ∧
        (seqScan regs allLen st steps i).step_results =
          dictSet st.step_results stp.step_id
            (execute_step regs stp st.step_results) ∧
        (seqScan regs allLen st steps i).step_log =
          st.step_log ++ [(stp.step_id, execute_step regs stp st.step_results)]) := by
  intro steps
  induction steps with
  | nil =>
    intro st i
    refine ⟨fun _ => rfl, fun stp h => ?_⟩
    simp [specFirstReadyStep] at h
  | cons s rest ih =>
    intro st i
    cases hc : st.completed_steps.contains s.step_id with
    | true =>
      have hspec : specFirstReadyStep st.completed_steps (s :: rest) =
          specFirstReadyStep st.completed_steps rest := by
        unfold specFirstReadyStep
        rw [List.find?_cons_of_neg]
        rw [hc]
        simp
      have hseq : seqScan regs allLen st (s :: rest) i =
          seqScan regs allLen st rest (i + 1) := by
        simp only [seqScan, hc]
        simp
      rw [hspec, hseq]
      exact ih st (i + 1)
    | false =>
      cases hd : s.dependencies.all (st.completed_steps.contains ·) with
      | false =>
        have hspec : specFirstReadyStep st.completed_steps (s :: rest) =
            specFirstReadyStep st.completed_steps rest := by
          unfold specFirstReadyStep
          rw [List.find?_cons_of_neg]
          rw [hc, hd]
          simp
        have hseq : seqScan regs allLen st (s :: rest) i =
            seqScan regs allLen st rest (i + 1) := by
          simp only [seqScan, hc, hd]
          simp
        rw [hspec, hseq]
        exact ih st (i + 1)
      | true =>
        have hspec : specFirstReadyStep st.completed_steps (s :: rest) = some s := by
          unfold specFirstReadyStep
          rw [List.find?_cons_of_pos]
          rw [hc, hd]
          rfl
        refine ⟨fun h => ?_, fun stp h => ?_⟩
        · rw [hspec] at h
          cases h
        · rw [hspec] at h
          injection h with h'
          subst h'
          have hseq : seqScan regs allLen st (s :: rest) i =
              { st with
                completed_steps := st.completed_steps ++ [s.step_id],
                step_results := dictSet st.step_results s.step_id
                  (execute_step regs s st.step_results),
                step_log := st.step_log ++
                  [(s.step_id, execute_step regs s st.step_results)],
                current_step := i + 1,
                status := if (st.completed_steps ++ [s.step_id]).length < allLen
                          then "running" else "completed" } := by
            simp only [seqScan, hc, hd]
            simp
          rw [hseq]
          exact ⟨rfl, rfl, rfl⟩

/-- C5.  A single invocation of `_execute_sequential_steps` executes at
most one step, namely the first step in list order that is not yet in
`completed_steps` and whose dependencies are all in `completed_steps`
(the `specFirstReadyStep` of the state): if no such step exists, the state
is returned unchanged except for `status = completed`; otherwise exactly
that step's result is recorded in `step_results`, its id is appended to
`completed_steps`, and exactly one `lgraph_step_logs` entry is written.
(The source records and appends on failure as well, so in particular it
does so on success, as the claim states.) -/
theorem c5_sequential_executes_first_ready (regs : Registries)
    (st : LgState) (steps : List Step) :
    (specFirstReadyStep st.completed_steps steps = none →
      execSeq regs st steps = { st with status := "completed" }) ∧
    (∀ stp, specFirstReadyStep st.completed_steps steps = some stp →
      (execSeq regs st steps).completed_steps =
        st.completed_steps ++ [stp.step_id] ∧
      (execSeq regs st steps).step_results =
        dictSet st.step_results stp.step_id
          (execute_step regs stp st.step_results) ∧
      (execSeq regs st steps).step_log =
        st.step_log ++ [(stp.step_id, execute_step regs stp st.step_results)]) :=
  seqScan_spec regs steps.length steps st 0

/-- The fresh execution state `approve_plan` reconstructs before invoking
the execution engine (`completed_steps`, `step_results` empty, counters at
zero, an empty `loop_state` dictionary). -/
def freshLgState : LgState :=
  { current_step := 0, completed_steps := [], step_results := [],
    loop_max_iterations := none, loop_current_iteration := none,
    status := "approved", step_log := [] }

/-- Registry instance for the planner scenarios: the `echo_agent` of
`agents/echo_agent.py` registered under its id, and no tools. -/
def echoRegistry : Registries :=
  { agents := [("echo_agent", echo_agent_execute "echo_agent")], tools := [] }

/-- A plain agent step with no dependencies, used by the witnesses. -/
def mkAgentStep (id : String) (aid : String) (deps : List String) : Step :=
  { step_id := id, name := id, type := "agent", agent_id := some aid,
    tool_name := none, input := [], dependencies := deps,
    use_previous_result := false }

/-- C5 witness: on a two-step list with a fresh state, the sequential
executor runs exactly the first step. -/
theorem c5_sequential_executes_first_ready_witness :
    specFirstReadyStep freshLgState.completed_steps
      [mkAgentStep "s1" "echo_agent" [], mkAgentStep "s2" "echo_agent" []] =
      some (mkAgentStep "s1" "echo_agent" []) ∧
    (execSeq echoRegistry freshLgState
      [mkAgentStep "s1" "echo_agent" [], mkAgentStep "s2" "echo_agent" []]).completed_steps =
      freshLgState.completed_steps ++ [(mkAgentStep "s1" "echo_agent" []).step_id] :=
  ⟨rfl,
   ((c5_sequential_executes_first_ready echoRegistry freshLgState
      [mkAgentStep "s1" "echo_agent" [], mkAgentStep "s2" "echo_agent" []]).2
      (mkAgentStep "s1" "echo_agent" []) rfl).1⟩

/-! ## Parallel execution batch completeness (claim C6) -/

theorem parScan_completed_mono (regs : Registries) :
    ∀ (steps : List Step) (st : LgState) (x : String),
      x ∈ st.completed_steps → x ∈ (parScan regs st steps).completed_steps := by
  intro steps
  induction steps with
  | nil => exact fun st x hx => hx
  | cons s rest ih =>
    intro st x hx
    cases hc : st.completed_steps.contains s.step_id with
    | true =>
      have : parScan regs st (s :: rest) = parScan regs st rest := by
        simp only [parScan, hc]
        simp
      rw [this]
      exact ih st x hx
    | false =>
      cases hd : s.dependencies.all (st.completed_steps.contains ·) with
      | false =>
        have : parScan regs st (s :: rest) = parScan regs st rest := by
          simp only [parScan, hc, hd]
          simp
        rw [this]
        exact ih st x hx
      | true =>
        have : parScan regs st (s :: rest) = parScan regs
            { st with
              completed_steps := st.completed_steps ++ [s.step_id],
              step_results := dictSet st.step_results s.step_id
                (execute_step regs s st.step_results),
              step_log := st.step_log ++
                [(s.step_id, execute_step regs s st.step_results)] } rest := by
          simp only [parScan, hc, hd]
          simp
        rw [this]
        exact ih _ x (List.mem_append_left _ hx)

theorem parScan_log_mono (regs : Registries) :
    ∀ (steps : List Step) (st : LgState)
      (e : String × List (String × Val)),
      e ∈ st.step_log → e ∈ (parScan regs st steps).step_log := by
  intro steps
  induction steps with
  | nil => exact fun st e he => he
  | cons s rest ih =>
    intro st e he
    cases hc : st.completed_steps.contains s.step_id with
    | true =>
      have : parScan regs st (s :: rest) = parScan regs st rest := by
        simp only [parScan, hc]
        simp
      rw [this]
      exact ih st e he
    | false =>
      cases hd : s.dependencies.all (st.completed_steps.contains ·) with
      | false =>
        have : parScan regs st (s :: rest) = parScan regs st rest := by
          simp only [parScan, hc, hd]
          simp
        rw [this]
        exact ih st e he
      | true =>
        have : parScan regs st (s :: rest) = parScan regs
            { st with
              completed_steps := st.completed_steps ++ [s.step_id],
              step_results := dictSet st.step_results s.step_id
                (execute_step regs s st.step_results),
              step_log := st.step_log ++
                [(s.step_id, execute_step regs s st.step_results)] } rest := by
          simp only [parScan, hc, hd]
          simp
        rw [this]
        exact ih _ e (List.mem_append_left _ he)

theorem parScan_executes_ready (regs : Registries) :
    ∀ (steps : List Step) (st : LgState) (stp : Step), stp ∈ steps →
      st.completed_steps.contains stp.step_id = false →
      stp.dependencies.all (st.completed_steps.contains ·) = true →
      stp.step_id ∈ (parScan regs st steps).completed_steps ∧
      ∃ r, (stp.step_id, r) ∈ (parScan regs st steps).step_log := by
  intro steps
  induction steps with
  | nil =>
    intro st stp h
    cases h
  | cons s rest ih =>
    intro st stp hmem hc0 hd0
    rcases List.mem_cons.mp hmem with rfl | hrest
    · -- the head step itself is ready and not completed: it executes here
      have hstep : parScan regs st (stp :: rest) = parScan regs
          { st with
            completed_steps := st.completed_steps ++ [stp.step_id],
            step_results := dictSet st.step_results stp.step_id
              (execute_step regs stp st.step_results),
            step_log := st.step_log ++
              [(stp.step_id, execute_step regs stp st.step_results)] } rest := by
        simp only [parScan, hc0, hd0]
        simp
      rw [hstep]
      constructor
      · exact parScan_completed_mono regs rest _ _
          (List.mem_append_right _ (List.mem_singleton_self _))
      · exact ⟨execute_step regs stp st.step_results,
          parScan_log_mono regs rest _ _
            (List.mem_append_right _ (List.mem_singleton_self _))⟩
    · cases hc : st.completed_steps.contains s.step_id with
      | true =>
        have hstep : parScan regs st (s :: rest) = parScan regs st rest := by
          simp only [parScan, hc]
          simp
        rw [hstep]
        exact ih st stp hrest hc0 hd0
      | false =>
        cases hd : s.dependencies.all (st.completed_steps.contains ·) with
        | false =>
          have hstep : parScan regs st (s :: rest) = parScan regs st rest := by
            simp only [parScan, hc, hd]
            simp
          rw [hstep]
          exact ih st stp hrest hc0 hd0
        | true =>
          have hstep : parScan regs st (s :: rest) = parScan regs
              { st with
                completed_steps := st.completed_steps ++ [s.step_id],
                step_results := dictSet st.step_results s.step_id
                  (execute_step regs s st.step_results),
                step_log := st.step_log ++
                  [(s.step_id, execute_step regs s st.step_results)] } rest := by
            simp only [parScan, hc, hd]
            simp
          rw [hstep]
          by_cases hid : s.step_id = stp.step_id
          · refine ⟨parScan_completed_mono regs rest _ _
              (List.mem_append_right _ ?_), ?_⟩
            · rw [hid]
              exact List.mem_singleton_self _
            · refine ⟨execute_step regs s st.step_results,
                parScan_log_mono regs rest _ _ (List.mem_append_right _ ?_)⟩
              rw [hid]
              exact List.mem_singleton_self _
          · have hmem0 : stp.step_id ∉ st.completed_steps := by
              simpa using hc0
            have hid' : ¬ stp.step_id = s.step_id := fun h => hid h.symm
            have hc1 : ((st.completed_steps ++ [s.step_id]).contains
                stp.step_id) = false := by
              simp [hmem0, hid']
            have hd1 : (stp.dependencies.all
                ((st.completed_steps ++ [s.step_id]).contains ·)) = true := by
              rw [List.all_eq_true] at hd0 ⊢
              intro x hx
              have hx' : x ∈ st.completed_steps := by
                simpa using hd0 x hx
              simp [hx']
            exact ih _ stp hrest hc1 hd1

/-- C6.  A single invocation of `_execute_parallel_steps` executes every
step that is not yet completed and whose dependencies are satisfied on
entry — not just the first one: each such step's id ends up in
`completed_steps` and a step-log entry is written for it.  (The scan also
picks up steps that become ready during the same pass, a superset of the
claim's batch.) -/
theorem c6_parallel_executes_all_ready (regs : Registries) (st : LgState)
    (steps : List Step) (stp : Step) (hmem : stp ∈ steps)
    (hc : st.completed_steps.contains stp.step_id = false)
    (hd : stp.dependencies.all (st.completed_steps.contains ·) = true) :
    stp.step_id ∈ (execPar regs st steps).completed_steps ∧
    ∃ r, (stp.step_id, r) ∈ (execPar regs st steps).step_log := by
  have h := parScan_executes_ready regs steps st stp hmem hc hd
  unfold execPar
  dsimp only
  exact h

/-- C6 witness: for a plan with steps `A` and `B`, both without
dependencies, a single parallel pass completes and logs both — neither is
left pending while the other has run. -/
theorem c6_parallel_executes_all_ready_witness :
    ((mkAgentStep "A" "echo_agent" []).step_id ∈
      (execPar echoRegistry freshLgState
        [mkAgentStep "A" "echo_agent" [], mkAgentStep "B" "echo_agent" []]).completed_steps ∧
     ∃ r, ((mkAgentStep "A" "echo_agent" []).step_id, r) ∈
      (execPar echoRegistry freshLgState
        [mkAgentStep "A" "echo_agent" [], mkAgentStep "B" "echo_agent" []]).step_log) ∧
    ((mkAgentStep "B" "echo_agent" []).step_id ∈
      (execPar echoRegistry freshLgState
        [mkAgentStep "A" "echo_agent" [], mkAgentStep "B" "echo_agent" []]).completed_steps ∧
     ∃ r, ((mkAgentStep "B" "echo_agent" []).step_id, r) ∈
      (execPar echoRegistry freshLgState
        [mkAgentStep "A" "echo_agent" [], mkAgentStep "B" "echo_agent" []]).step_log) :=
  ⟨c6_parallel_executes_all_ready echoRegistry freshLgState
      [mkAgentStep "A" "echo_agent" [], mkAgentStep "B" "echo_agent" []]
      (mkAgentStep "A" "echo_agent" []) (List.mem_cons_self _ _) rfl rfl,
   c6_parallel_executes_all_ready echoRegistry freshLgState
      [mkAgentStep "A" "echo_agent" [], mkAgentStep "B" "echo_agent" []]
      (mkAgentStep "B" "echo_agent" [])
      (List.mem_cons_of_mem _ (List.mem_cons_self _ _)) rfl rfl⟩

/-! ## Loop-mode iteration cap (claim C7) -/

theorem seqScan_log_le (regs : Registries) (allLen : Nat) :
    ∀ (steps : List Step) (st : LgState) (i : Nat),
      (seqScan regs allLen st steps i).step_log.length ≤
        st.step_log.length + 1 := by
  intro steps
  induction steps with
  | nil =>
    intro st i
    exact Nat.le_succ _
  | cons s rest ih =>
    intro st i
    simp only [seqScan]
    split
    · exact ih st (i + 1)
    · split
      · simp
      · exact ih st (i + 1)

theorem seqScan_loop_fields (regs : Registries) (allLen : Nat) :
    ∀ (steps : List Step) (st : LgState) (i : Nat),
      (seqScan regs allLen st steps i).loop_max_iterations =
        st.loop_max_iterations ∧
      (seqScan regs allLen st steps i).loop_current_iteration =
        st.loop_current_iteration := by
  intro steps
  induction steps with
  | nil =>
    intro st i
    exact ⟨rfl, rfl⟩
  | cons s rest ih =>
    intro st i
    simp only [seqScan]
    split
    · exact ih st (i + 1)
    · split
      · exact ⟨rfl, rfl⟩
      · exact ih st (i + 1)

theorem execLoopSteps_cap (regs : Registries) (steps : List Step)
    (st : LgState)
    (h : st.loop_max_iterations.getD 5 ≤ st.loop_current_iteration.getD 0) :
    execLoopSteps regs st steps = { st with status := "completed" } := by
  unfold execLoopSteps
  dsimp only
  rw [if_pos h]

theorem execLoopSteps_progress (regs : Registries) (steps : List Step)
    (st : LgState)
    (h : ¬ st.loop_max_iterations.getD 5 ≤ st.loop_current_iteration.getD 0) :
    (execLoopSteps regs st steps).step_log.length ≤
      st.step_log.length + 1 ∧
    (execLoopSteps regs st steps).loop_max_iterations =
      st.loop_max_iterations ∧
    (execLoopSteps regs st steps).loop_current_iteration =
      some (st.loop_current_iteration.getD 0 + 1) := by
  unfold execLoopSteps
  dsimp only
  rw [if_neg h]
  split
  · exact ⟨seqScan_log_le regs steps.length steps st 0,
      (seqScan_loop_fields regs steps.length steps st 0).1, rfl⟩
  · exact ⟨seqScan_log_le regs steps.length steps st 0,
      (seqScan_loop_fields regs steps.length steps st 0).1, rfl⟩

theorem loopRun_log_bound (regs : Registries) (steps : List Step) :
    ∀ (k : Nat) (st : LgState),
      (loopRun regs steps k st).step_log.length ≤
        st.step_log.length +
          (st.loop_max_iterations.getD 5 -
            st.loop_current_iteration.getD 0) := by
  intro k
  induction k with
  | zero =>
    intro st
    exact Nat.le_add_right _ _
  | succ k ih =>
    intro st
    show (loopRun regs steps k (execLoopSteps regs st steps)).step_log.length ≤ _
    by_cases h : st.loop_max_iterations.getD 5 ≤ st.loop_current_iteration.getD 0
    · rw [execLoopSteps_cap regs steps st h]
      exact ih { st with status := "completed" }
    · obtain ⟨hlog, hmax, hcur⟩ := execLoopSteps_progress regs steps st h
      have hb := ih (execLoopSteps regs st steps)
      rw [hmax, hcur] at hb
      simp only [Option.getD_some] at hb
      omega

/-- C7.  One theorem bundling the loop-mode cap: (a) once the iteration
counter has reached `max_iterations`, `_execute_loop_steps` reports the
state completed and executes nothing (the state is returned unchanged but
for its status); (b) below the cap, when the inner sequential pass reports
completion the executor resets `completed_steps` and `current_step` for
the next iteration and increments the counter; (c) iterating the loop
executor any number of times from a state with an empty step log writes at
most `max_iterations` step-log entries — so the full step list is re-run
at most `max_iterations` times and never `max_iterations + 1` times. -/
theorem c7_loop_iteration_cap (regs : Registries) (steps : List Step) :
    (∀ st : LgState,
      st.loop_max_iterations.getD 5 ≤ st.loop_current_iteration.getD 0 →
        execLoopSteps regs st steps = { st with status := "completed" }) ∧
    (∀ st : LgState,
      ¬ st.loop_max_iterations.getD 5 ≤ st.loop_current_iteration.getD 0 →
        (execSeq regs st steps).status = "completed" →
        (execLoopSteps regs st steps).completed_steps = [] ∧
        (execLoopSteps regs st steps).current_step = 0 ∧
        (execLoopSteps regs st steps).status = "running" ∧
        (execLoopSteps regs st steps).loop_current_iteration =
          some (st.loop_current_iteration.getD 0 + 1)) ∧
    (∀ (k : Nat) (st : LgState), st.step_log = [] →
        (loopRun regs steps k st).step_log.length ≤
          st.loop_max_iterations.getD 5) := by
  refine ⟨fun st h => execLoopSteps_cap regs steps st h, fun st h hs => ?_,
    fun k st h0 => ?_⟩
  · unfold execLoopSteps
    dsimp only
    rw [if_neg h, if_pos (by simp [execSeq] at hs ⊢; rw [hs])]
    exact ⟨rfl, rfl, rfl, rfl⟩
  · have hb := loopRun_log_bound regs steps k st
    have h1 : st.step_log.length = 0 := by rw [h0]; rfl
    omega

/-- C7 witness: with a one-step list, a state whose counter already equals
the (default) cap of 5 is returned completed and unchanged, and seven
iterations from a fresh state log at most five step executions. -/
theorem c7_loop_iteration_cap_witness :
    execLoopSteps echoRegistry
      { freshLgState with loop_current_iteration := some 5 }
      [mkAgentStep "s1" "echo_agent" []] =
      { { freshLgState with loop_current_iteration := some 5 } with
        status := "completed" } ∧
    (loopRun echoRegistry [mkAgentStep "s1" "echo_agent" []] 7
      freshLgState).step_log.length ≤ 5 :=
  ⟨(c7_loop_iteration_cap echoRegistry [mkAgentStep "s1" "echo_agent" []]).1
      { freshLgState with loop_current_iteration := some 5 } (by decide),
   (c7_loop_iteration_cap echoRegistry [mkAgentStep "s1" "echo_agent" []]).2.2
      7 freshLgState rfl⟩

/-! ## Planning-strategy fallback (claim C8) -/

/-- C8.  For every planning-strategy output that is not parseable JSON at
`_decide_strategy` (`parsed = none`, the outcome of the `json.loads`
`except` branch), the engine raises no exception and falls back to
`plan_type = create_stategraph` with `execution_mode = sequential`: the
result is `Except.ok` (never `Except.error`) with exactly those fallback
values, for every incoming planner state. -/
theorem c8_decide_strategy_fallback (ctx : PlanCtx) :
    decide_strategy none ctx = Except.ok
      { ctx with
        plan_type := some PlanType.create_stategraph,
        selected_dag_id := none,
        strategy_execution_mode := some "sequential" } := rfl

/-! ## Echo scenario (claim C9) -/

/-- The plan the fallback path constructs for the request `echo hello`
with `echo_agent` available: `_decide_strategy`'s fallback fixes
`execution_mode = sequential`, and `_construct_stategraph_plan`'s fallback
emits the single agent step. -/
def echoScenarioPlan : ExecPlan :=
  fallback_stategraph_plan "echo hello" ["echo_agent"] "sequential"

/-- The `execution_plan` slot of the planner\'s `WorkflowState`, as the two
paths into `_execute_plan` actually shape it.  On the supervisor path the
slot is the dictionary the planning nodes build up, whose `details` key
(set by `_construct_plan`) holds the constructed plan.  On the
`approve_plan` path (lgraph_planner.py line 896) the slot is
`json.loads(plan["execution_plan"])` — the bare details dictionary that
`_request_approval` persisted (lines 426 and 441), whose keys are `type`,
`execution_mode`, `steps`, `parallel_groups`, `hitl_checkpoints` and
`loop_config`, never `details`. -/
inductive PlanSlot where
  | withDetails (details : ExecPlan) : PlanSlot
  | bare (plan : ExecPlan) : PlanSlot

/-- The `state["execution_plan"]["details"]` lookup performed first thing
by `_execute_plan` (line 469) and again by `_execute_stategraph_plan`
(line 528): on a bare details dictionary the key is absent and Python
raises `KeyError: \'details\'`, modelled as `Except.error`. -/
def PlanSlot.getDetails : PlanSlot → Except String ExecPlan
  | PlanSlot.withDetails d => Except.ok d
  | PlanSlot.bare _ => Except.error "KeyError: details"

/-- `LangGraphPlanner._execute_plan` for a `create_stategraph` plan: its
first statement indexes `["details"]` into the `execution_plan` slot; only
when that succeeds does it insert the `lgraph_workflows` row and dispatch
to `_execute_stategraph_plan` (whose own `["details"]` lookup then reads
the same slot and succeeds as well).  The error propagates — nothing in
the planner catches it. -/
def planner_execute_plan (regs : Registries) (st : LgState)
    (slot : PlanSlot) : Except String LgState :=
  match slot.getDetails with
  | Except.error e => Except.error e
  | Except.ok plan => Except.ok (execStategraph regs st plan)

/-- `LangGraphPlanner.approve_plan`, from the point where the plan row has
been marked approved: it reconstructs a fresh execution state
(`completed_steps`, `step_results` empty — `freshLgState`) whose
`execution_plan` is the parsed persisted details dictionary
(`PlanSlot.bare`), and calls `_execute_plan` on it. -/
def approve_plan_execute (regs : Registries) (persisted : ExecPlan) :
    Except String LgState :=
  planner_execute_plan regs freshLgState (PlanSlot.bare persisted)

/-- C9 counterexample.  The claim predicts that after approval and
execution the workflow status is `completed` and the step result contains
`echo: "hello"`.  Approving the scenario\'s plan never reaches the step
executor at all: `approve_plan` rebuilds `execution_plan` as the bare
persisted details dictionary, and `_execute_plan`\'s first line raises
`KeyError: \'details\'` on it — before the workflow record is created or
any step runs — so no execution state exists, let alone a completed one
with a recorded echo. -/
theorem c9_echo_scenario_counterexample :
    approve_plan_execute echoRegistry echoScenarioPlan =
      Except.error "KeyError: details" ∧
    (approve_plan_execute echoRegistry echoScenarioPlan).isOk = false :=
  ⟨rfl, rfl⟩

/-- C9 (amended).  For the request `echo hello` with available agent
`echo_agent` and malformed planner output forcing the fallbacks: the
created plan has exactly one step `step_1` of type `agent` targeting
`echo_agent` with input `\x7brequest: "echo hello"\x7d`; but calling
`approve_plan` on it raises `KeyError: \'details\'` inside `_execute_plan`
(the reconstructed `execution_plan` is the bare details dictionary, which
has no `details` key), before the `lgraph_workflows` row is inserted or
any step executes — so the workflow never reaches status `completed` and
no step result (no echo) is ever recorded. -/
theorem c9_echo_scenario_amended :
    echoScenarioPlan.steps =
      [{ step_id := "step_1", name := "Execute request", type := "agent",
         agent_id := some "echo_agent", tool_name := none,
         input := [("request", Val.vStr "echo hello")], dependencies := [],
         use_previous_result := false }] ∧
    approve_plan_execute echoRegistry echoScenarioPlan =
      Except.error "KeyError: details" :=
  ⟨rfl, rfl⟩

/-! ## Autonomous-planner HITL approval frame (claim C10) -/

/-- C10.  For every database state, `hitl_id`, `user_id` and `response`,
the autonomous planner's `approve_hitl` returns `True` and updates only
the matching `lgraph_hitl_requests` rows (status, responder, response):
plans, workflows and step logs are untouched — in particular no step is
executed and no workflow record changes, so this call does not resume
execution — non-matching HITL rows survive unchanged, and every row
carrying the given `hitl_id` ends marked `approved` with the responder and
response recorded. -/
theorem c10_approve_hitl_frame (db : LgDb) (hid uid resp : String) :
    (lgraph_approve_hitl db hid uid resp).1 = true ∧
    (lgraph_approve_hitl db hid uid resp).2.lgraph_plans = db.lgraph_plans ∧
    (lgraph_approve_hitl db hid uid resp).2.lgraph_workflows =
      db.lgraph_workflows ∧
    (lgraph_approve_hitl db hid uid resp).2.lgraph_step_logs =
      db.lgraph_step_logs ∧
    (∀ r ∈ db.lgraph_hitl_requests, r.hitl_id ≠ hid →
      r ∈ (lgraph_approve_hitl db hid uid resp).2.lgraph_hitl_requests) ∧
    (∀ r ∈ (lgraph_approve_hitl db hid uid resp).2.lgraph_hitl_requests,
      r.hitl_id = hid →
        r.hstatus = "approved" ∧ r.responded_by = some uid ∧
          r.response = some resp) := by
  refine ⟨rfl, rfl, rfl, rfl, fun r hr hne => ?_, fun r hr hid' => ?_⟩
  · have : (if r.hitl_id == hid then
        ({ r with
           hstatus := "approved", responded_by := some uid,
           response := some resp } : LgHitlRec)
      else r) = r := by
      rw [if_neg]
      simp [hne]
    exact this ▸ List.mem_map_of_mem _ hr
  · obtain ⟨a, ha, heq⟩ := List.mem_map.mp hr
    by_cases hb : a.hitl_id = hid
    · rw [← heq]
      simp [hb]
    · rw [← heq] at hid' ⊢
      simp only [hb, beq_iff_eq, if_neg] at hid' ⊢
      exact absurd hid' hb

/-- Database instance for the C10 witness: one workflow, two pending HITL
requests. -/
def c10Db : LgDb :=
  { lgraph_plans := [{ plan_id := "p1", pstatus := "approved" }],
    lgraph_workflows :=
      [{ workflow_id := "w1", wstatus := "running", werror := none }],
    lgraph_step_logs := [],
    lgraph_hitl_requests :=
      [{ hitl_id := "h1", workflow_id := "w1", plan_id := "p1",
         checkpoint := "s1", message := "review", hstatus := "pending",
         responded_by := none, response := none },
       { hitl_id := "h2", workflow_id := "w1", plan_id := "p1",
         checkpoint := "s2", message := "review", hstatus := "pending",
         responded_by := none, response := none }] }

/-- C10 witness: approving `h1` on `c10Db` leaves the workflow table
unchanged, keeps the non-matching request `h2` as it was, and every row
for `h1` is approved with responder and response recorded. -/
theorem c10_approve_hitl_frame_witness :
    (lgraph_approve_hitl c10Db "h1" "u1" "ok").2.lgraph_workflows =
      c10Db.lgraph_workflows ∧
    ({ hitl_id := "h2", workflow_id := "w1", plan_id := "p1",
       checkpoint := "s2", message := "review", hstatus := "pending",
       responded_by := none, response := none } : LgHitlRec) ∈
      (lgraph_approve_hitl c10Db "h1" "u1" "ok").2.lgraph_hitl_requests ∧
    (∀ r ∈ (lgraph_approve_hitl c10Db "h1" "u1" "ok").2.lgraph_hitl_requests,
      r.hitl_id = "h1" →
        r.hstatus = "approved" ∧ r.responded_by = some "u1" ∧
          r.response = some "ok") :=
  ⟨(c10_approve_hitl_frame c10Db "h1" "u1" "ok").2.2.1,
   (c10_approve_hitl_frame c10Db "h1" "u1" "ok").2.2.2.2.1 _
     (List.mem_cons_of_mem _ (List.mem_cons_self _ _)) (by decide),
   (c10_approve_hitl_frame c10Db "h1" "u1" "ok").2.2.2.2.2⟩
